import Mathlib

/-!
Verification development for the smart-meter simulation core (`app.py`).

The embedding models the program's data and operations over exact types:
Python `datetime.date` values are records of year/month/day (Python date
arithmetic and comparison coincide with proleptic-Gregorian ordinal
arithmetic, mirrored here by `rd`), times of day are seconds since
midnight (all datetimes in the program have whole-second resolution),
float meter values are rationals, `random.uniform(0, 1)` is an input
stream `incs : Nat → ℚ` consumed one draw per generated reading, JSON
object files are insertion-ordered association lists (CPython dicts
preserve insertion order), and the filesystem tiers live in a `SysState`
record.  Fallible I/O is modelled by a `FailSpec` that injects an
`IOFailure` at a chosen step of the advance pipeline; the pipeline then
stops, returning the state persisted so far.
-/

namespace SMS

/-- Leap-year predicate, matching `calendar.isleap`. -/
def isLeap (y : Nat) : Bool :=
  (y % 4 == 0 && y % 100 != 0) || y % 400 == 0

/-- Days in a month, matching `calendar.monthrange(y, m)[1]` (0 on an
invalid month number, which the program never passes). -/
def dim (y m : Nat) : Nat :=
  match m with
  | 1 => 31
  | 2 => if isLeap y then 29 else 28
  | 3 => 31
  | 4 => 30
  | 5 => 31
  | 6 => 30
  | 7 => 31
  | 8 => 31
  | 9 => 30
  | 10 => 31
  | 11 => 30
  | 12 => 31
  | _ => 0

/-- Cumulative days before month `m` in a year with leap flag `lp`. -/
def cdays (m : Nat) (lp : Bool) : Nat :=
  (match m with
   | 1 => 0
   | 2 => 31
   | 3 => 59
   | 4 => 90
   | 5 => 120
   | 6 => 151
   | 7 => 181
   | 8 => 212
   | 9 => 243
   | 10 => 273
   | 11 => 304
   | 12 => 334
   | _ => 0)
  + (if lp ∧ 3 ≤ m then 1 else 0)

/-- Calendar date (`datetime.date`). -/
structure Date where
  y : Nat
  m : Nat
  d : Nat
deriving DecidableEq, Repr

/-- A date the `datetime` library would accept. -/
def Date.Valid (a : Date) : Prop :=
  1 ≤ a.y ∧ 1 ≤ a.m ∧ a.m ≤ 12 ∧ 1 ≤ a.d ∧ a.d ≤ dim a.y a.m

instance (a : Date) : Decidable a.Valid := by
  unfold Date.Valid
  infer_instance

/-- Proleptic-Gregorian ordinal of a date, as `datetime.date.toordinal`:
day 1 is 0001-01-01.  Python date comparison and `timedelta` day
arithmetic coincide with this ordinal. -/
def rd (a : Date) : Nat :=
  365 * (a.y - 1) + (a.y - 1) / 4 + (a.y - 1) / 400
    + cdays a.m (isLeap a.y) + a.d - (a.y - 1) / 100

/-- The day after `a` (`a + timedelta(days=1)`). -/
def nextDate (a : Date) : Date :=
  if a.d < dim a.y a.m then ⟨a.y, a.m, a.d + 1⟩
  else if a.m < 12 then ⟨a.y, a.m + 1, 1⟩
  else ⟨a.y + 1, 1, 1⟩

/-- The day before `a` (`a - timedelta(days=1)`). -/
def prevDate (a : Date) : Date :=
  if 1 < a.d then ⟨a.y, a.m, a.d - 1⟩
  else if 1 < a.m then ⟨a.y, a.m - 1, dim a.y (a.m - 1)⟩
  else ⟨a.y - 1, 12, 31⟩

/-- `a + timedelta(days=n)`. -/
def addDays (n : Nat) (a : Date) : Date :=
  nextDate^[n] a

/-- A `datetime.datetime` value: a date plus seconds since midnight. -/
structure DT where
  date : Date
  sec : Nat
deriving DecidableEq, Repr

/-- A datetime the `datetime` library would accept. -/
def DT.Valid (t : DT) : Prop :=
  t.date.Valid ∧ t.sec < 86400

instance (t : DT) : Decidable t.Valid := by
  unfold DT.Valid
  infer_instance

/-- Total order key of a datetime; Python datetime comparison coincides
with comparison of these keys. -/
def dtKey (t : DT) : Nat :=
  rd t.date * 86400 + t.sec

/-- `t + timedelta(seconds=s)` for `s ≥ 0`. -/
def addSecs (s : Nat) (t : DT) : DT :=
  ⟨addDays ((t.sec + s) / 86400) t.date, (t.sec + s) % 86400⟩

/-- The system's epoch, `datetime.datetime(2024, 5, 1)`. -/
def epochDT : DT := ⟨⟨2024, 5, 1⟩, 0⟩

/-- Linear month index `y*12 + (m-1)`; month comparison and
`relativedelta(months=k)` on first-of-month dates coincide with
arithmetic on this index. -/
def ymIdx (a : Date) : Nat :=
  a.y * 12 + (a.m - 1)

/-- Month index of the epoch month 2024-05. -/
def epochYM : Nat := ymIdx ⟨2024, 5, 1⟩

/-- Error taxonomy: `ValueError("Invalid time unit")` and filesystem
`IOError`. -/
inductive Err where
  | invalidUnit
  | io
deriving DecidableEq, Repr

/-- `ReadingGenerator._calculate_next_time` (app.py lines 141-158):
minutes/hours/days via `timedelta`, months by wrapping the month number
and clamping the day to the target month's last day; any other unit
raises `ValueError`. -/
def calcNextTime (t : DT) (unit : String) (n : Nat) : Except Err DT :=
  if unit = "minutes" then .ok (addSecs (n * 60) t)
  else if unit = "hours" then .ok (addSecs (n * 3600) t)
  else if unit = "days" then .ok ⟨addDays n t.date, t.sec⟩
  else if unit = "months" then
    let nm := t.date.m + n
    let ny := t.date.y + (nm - 1) / 12
    let nm2 := (nm - 1) % 12 + 1
    .ok ⟨⟨ny, nm2, min t.date.d (dim ny nm2)⟩, t.sec⟩
  else .error .invalidUnit

/-! ### Insertion-ordered association lists (CPython dict semantics) -/

/-- Dict lookup. -/
def lookupK {α β : Type} [DecidableEq α] (k : α) : List (α × β) → Option β
  | [] => none
  | (a, b) :: t => if a = k then some b else lookupK k t

/-- Dict store `d[k] = v`: replaces in place, or appends a new key. -/
def insertK {α β : Type} [DecidableEq α] (k : α) (v : β) : List (α × β) → List (α × β)
  | [] => [(k, v)]
  | (a, b) :: t => if a = k then (a, v) :: t else (a, b) :: insertK k v t

/-- Dict delete / file removal. -/
def eraseK {α β : Type} [DecidableEq α] (k : α) : List (α × β) → List (α × β)
  | [] => []
  | (a, b) :: t => if a = k then t else (a, b) :: eraseK k t

/-! ### Reading generator -/

/-- A `MeterReading` (app.py lines 18-22), with the ISO timestamp kept
as a `DT` (ISO rendering is injective on datetimes). -/
structure MR where
  meter_id : String
  reading_time : DT
  meter_value : ℚ
deriving DecidableEq, Repr

/-- The in-memory `latest_readings` map. -/
abbrev LMap := List (String × ℚ)

/-- Python `round(x, 3)` modelled as round-half-up at 3 decimals (the
claims proved below depend only on its monotonicity and `round3 0 = 0`).
-/
def round3 (q : ℚ) : ℚ :=
  (⌊q * 1000 + 1 / 2⌋ : ℚ) / 1000

/-- One sampling instant: the inner `for account in accounts` loop of
`generate_readings_for_day` (app.py lines 184-197).  Each account draws
the next increment from the stream, the unrounded running value is
remembered in `latest_readings`, and the emitted reading carries the
value rounded to 3 decimals. -/
def emitSlot (incs : Nat → ℚ) (date : Date) (s : Nat) :
    List String → LMap → Nat → List MR × LMap × Nat
  | [], lm, k => ([], lm, k)
  | a :: rest, lm, k =>
    let prev := (lookupK a lm).getD 0
    let v := prev + incs k
    let out := emitSlot incs date s rest (insertK a v lm) (k + 1)
    (⟨a, ⟨date, s⟩, round3 v⟩ :: out.1, out.2.1, out.2.2)

/-- Hour of a second count, with wrap-around to the next day (the hour
`datetime` reports after adding 30 minutes). -/
def hourOfSec (s : Nat) : Nat :=
  s % 86400 / 3600

/-- The `while current < day_end` loop of `generate_readings_for_day`
(app.py lines 175-199), on seconds of day within a fixed date.  `gas` is
initialised to `endS - cur`, which bounds the iteration count; the loop
in fact stops earlier via its own three exit conditions, exactly as in
the source: stop when `current ≥ day_end`, when the next 30-minute step
passes `day_end`, or when it lands in hour 0 (the maintenance window).
-/
def genDayLoop (accounts : List String) (incs : Nat → ℚ) (date : Date) (endS : Nat) :
    Nat → Nat → LMap → Nat → List MR × LMap × Nat
  | 0, _, lm, k => ([], lm, k)
  | gas + 1, cur, lm, k =>
    if cur < endS then
      let next := cur + 1800
      if endS < next then ([], lm, k)
      else if hourOfSec next = 0 then ([], lm, k)
      else
        let e := emitSlot incs date next accounts lm k
        let r := genDayLoop accounts incs date endS gas next e.2.1 e.2.2
        (e.1 ++ r.1, r.2.1, r.2.2)
    else ([], lm, k)

/-- `ReadingGenerator.generate_readings_for_day` (app.py lines 160-201):
normalise the start to the whole hour, move a midnight start to 01:00,
then run the 30-minute sampling loop. -/
def genDay (accounts : List String) (incs : Nat → ℚ) (date : Date)
    (startS endS : Nat) (lm : LMap) (k : Nat) : List MR × LMap × Nat :=
  let h0 := startS / 3600 * 3600
  let cur := if h0 / 3600 = 0 then 3600 else h0
  genDayLoop accounts incs date endS (endS - cur) cur lm k

/-- The `while next_day < end_time.date()` middle-days loop of
`generate_readings` (app.py lines 220-225).  `gas` is initialised to the
number of remaining days `endRd - rd x`, which the loop condition
`rd x < endRd` re-checks each turn. -/
def midLoop (accounts : List String) (incs : Nat → ℚ) (endRd : Nat) :
    Nat → Date → LMap → Nat → List MR × LMap × Nat
  | 0, _, lm, k => ([], lm, k)
  | gas + 1, x, lm, k =>
    if rd x < endRd then
      let g := genDay accounts incs x 0 86399 lm k
      let r := midLoop accounts incs endRd gas (nextDate x) g.2.1 g.2.2
      (g.1 ++ r.1, r.2.1, r.2.2)
    else ([], lm, k)

/-- `ReadingGenerator.generate_readings` (app.py lines 203-230): one
call per day — the first day up to 23:59:59, full middle days, and the
last day from midnight to `end_time`. -/
def genReadings (accounts : List String) (incs : Nat → ℚ) (s e : DT)
    (lm : LMap) (k : Nat) : List MR × LMap × Nat :=
  if s.date = e.date then genDay accounts incs s.date s.sec e.sec lm k
  else
    let g1 := genDay accounts incs s.date s.sec 86399 lm k
    let g2 := midLoop accounts incs (rd e.date) (rd e.date - rd (nextDate s.date))
      (nextDate s.date) g1.2.1 g1.2.2
    let g3 := genDay accounts incs e.date 0 e.sec g2.2.1 g2.2.2
    (g1.1 ++ g2.1 ++ g3.1, g3.2.1, g3.2.2)

/-- Number of sampling instants the day loop runs through (the same
recursion as `genDayLoop`, counting emissions). -/
def countSlots (endS : Nat) : Nat → Nat → Nat
  | 0, _ => 0
  | gas + 1, cur =>
    if cur < endS then
      let next := cur + 1800
      if endS < next then 0
      else if hourOfSec next = 0 then 0
      else countSlots endS gas next + 1
    else 0

/-- Readings of one meter, in emission order. -/
def forMeter (a : String) (l : List MR) : List MR :=
  l.filter fun r => r.meter_id == a

/-- The remembered running value of a meter (`latest_readings.get(id,
0)`). -/
def lkv (a : String) (lm : LMap) : ℚ :=
  (lookupK a lm).getD 0

/-- Chronological order with non-decreasing value: the relation C3
asserts between any two readings of one meter in generation order. -/
def mrChain (r₁ r₂ : MR) : Prop :=
  dtKey r₁.reading_time < dtKey r₂.reading_time ∧ r₁.meter_value ≤ r₂.meter_value

/-! ### Pending cache (`CacheProcessor`, app.py lines 525-583) -/

/-- One serialised cache entry `{reading_time, meter_value}`. -/
abbrev CachePair := DT × ℚ

/-- Parsed content of `daily_cache.json`: meter id → entry list. -/
abbrev CacheData := List (String × List CachePair)

/-- One step of the grouping loop in `save_cache` (app.py lines
538-547). -/
def insertCache (r : MR) : CacheData → CacheData
  | [] => [(r.meter_id, [(r.reading_time, r.meter_value)])]
  | (a, rs) :: t =>
    if a = r.meter_id then (a, rs ++ [(r.reading_time, r.meter_value)]) :: t
    else (a, rs) :: insertCache r t

/-- The dictionary `save_cache` serialises: readings grouped by meter id
in first-appearance order, each meter's list in original order. -/
def groupCache (l : List MR) : CacheData :=
  l.foldl (fun g r => insertCache r g) []

/-- The flattening loop of `load_cache` (app.py lines 564-572). -/
def ungroupCache : CacheData → List MR
  | [] => []
  | (a, rs) :: t => rs.map (fun q => ⟨a, q.1, q.2⟩) ++ ungroupCache t

/-- `CacheProcessor.save_cache` acting on the cache file's contents
(`none` = file absent): an empty reading list returns without touching
the file; otherwise the file is overwritten with the grouped data. -/
def saveCacheF (l : List MR) (f : Option CacheData) : Option CacheData :=
  if l = [] then f else some (groupCache l)

/-- `CacheProcessor.load_cache`: a missing file loads as `[]`. -/
def loadCacheF (f : Option CacheData) : List MR :=
  match f with
  | none => []
  | some g => ungroupCache g

/-! ### Daily files, monthly detail and monthly summary payloads -/

/-- One `{time, value}` entry of a daily file; `time` is the `"HH:MM"`
string kept as minute-of-day (the rendering is injective). -/
structure TV where
  minOfDay : Nat
  val : ℚ
deriving DecidableEq, Repr

/-- One meter's `{date, readings}` payload in a daily file. -/
structure DayMeter where
  date : Date
  readings : List TV
deriving DecidableEq, Repr

/-- Parsed content of a `readings_<YYYYMMDD>.json` file. -/
abbrev DayData := List (String × DayMeter)

/-- Parsed content of a `daily_<YYYYMM>_detail.json` file. -/
abbrev DetailData := List (String × List DayMeter)

/-- One step of the grouping loop in `DailyProcessor.process` (app.py
lines 256-268). -/
def insertDaily (pd : Date) (r : MR) : DayData → DayData
  | [] => [(r.meter_id, ⟨pd, [⟨r.reading_time.sec / 60, round3 r.meter_value⟩]⟩)]
  | (a, dm) :: t =>
    if a = r.meter_id then
      (a, ⟨dm.date, dm.readings ++ [⟨r.reading_time.sec / 60, round3 r.meter_value⟩]⟩) :: t
    else (a, dm) :: insertDaily pd r t

/-- The `daily_data` dictionary built by `DailyProcessor.process`. -/
def buildDailyData (pd : Date) (rs : List MR) : DayData :=
  rs.foldl (fun g r => insertDaily pd r g) []

/-- One step of folding a daily file into a monthly detail aggregate
(app.py lines 292-295 and 384-387). -/
def insertDetail (a : String) (dm : DayMeter) : DetailData → DetailData
  | [] => [(a, [dm])]
  | (b, l) :: t => if b = a then (b, l ++ [dm]) :: t else (b, l) :: insertDetail a dm t

/-- Fold a whole daily file into a monthly detail aggregate. -/
def foldDayIntoDetail (dd : DayData) (det : DetailData) : DetailData :=
  dd.foldl (fun acc p => insertDetail p.1 p.2 acc) det

/-- One step of `collect_readings`' grouping of pending readings by
calendar date (app.py lines 623-630). -/
def insertDateGroup (r : MR) : List (Date × List MR) → List (Date × List MR)
  | [] => [(r.reading_time.date, [r])]
  | (dte, l) :: t =>
    if dte = r.reading_time.date then (dte, l ++ [r]) :: t
    else (dte, l) :: insertDateGroup r t

/-- Pending readings grouped by date, in first-appearance order. -/
def groupByDate (l : List MR) : List (Date × List MR) :=
  l.foldl (fun g r => insertDateGroup r g) []

/-! ### Monthly summary (`MonthlyProcessor`, app.py lines 335-521) -/

/-- One flattened reading of a month: the `{datetime, date, time,
value}` record of `MonthlyProcessor.archive` (app.py lines 426-431). -/
structure SumReading where
  date : Date
  minOfDay : Nat
  val : ℚ
deriving DecidableEq, Repr

/-- Sort key: the `"YYYY-MM-DD HH:MM"` string, whose lexicographic order
on the fixed-width rendering is this numeric order. -/
def srKey (r : SumReading) : Nat :=
  rd r.date * 1440 + r.minOfDay

/-- Stable insertion of a reading after all existing readings with a
key not greater than its own (Python's `list.sort` is stable). -/
def ordInsert (x : SumReading) : List SumReading → List SumReading
  | [] => [x]
  | y :: t => if srKey y ≤ srKey x then y :: ordInsert x t else x :: y :: t

/-- Chronological stable sort of a meter's flattened readings. -/
def sortSR (l : List SumReading) : List SumReading :=
  l.foldl (fun acc x => ordInsert x acc) []

/-- Flatten one meter's month of daily payloads (app.py lines 422-431).
-/
def flattenDays : List DayMeter → List SumReading
  | [] => []
  | dm :: t => dm.readings.map (fun tv => ⟨dm.date, tv.minOfDay, tv.val⟩) ++ flattenDays t

/-- Parsed content of a `month_readings_<YYYYMM>.json` file: meter id →
(month key, [first reading, last reading]). -/
abbrev SummaryData := List (String × (Nat × List SumReading))

/-- The summary-building loop of `MonthlyProcessor.archive` (app.py
lines 417-456): per meter, sort the month's readings chronologically and
keep the first and last; meters with no readings are omitted. -/
def summarize (lmonth : Nat) : DetailData → SummaryData
  | [] => []
  | (a, days) :: t =>
    match h : sortSR (flattenDays days) with
    | [] => summarize lmonth t
    | x :: xs => (a, (lmonth, [x, (x :: xs).getLast (by simp)])) :: summarize lmonth t

/-- Zero-pad to 4 digits (`strftime("%Y")` for years below 10000). -/
def pad4 (n : Nat) : String :=
  if n < 10 then "000" ++ toString n
  else if n < 100 then "00" ++ toString n
  else if n < 1000 then "0" ++ toString n
  else toString n

/-- Zero-pad to 2 digits (`strftime("%m")`). -/
def pad2 (n : Nat) : String :=
  if n < 10 then "0" ++ toString n else toString n

/-- Month-folder name `strftime("%Y%m")` of a month index. -/
def fmtYM (c : Nat) : String :=
  pad4 (c / 12) ++ pad2 (c % 12 + 1)

/-- Accumulate a digit string's value; `none` on a non-digit. -/
def digitsToNatAux (acc : Nat) : List Char → Option Nat
  | [] => some acc
  | c :: r => if c.isDigit then digitsToNatAux (acc * 10 + (c.toNat - 48)) r else none

/-- `datetime.strptime(name, "%Y%m")` as used by
`_cleanup_old_readings`: 4 digits of year (≥ 1), then a 1- or 2-digit
month in 1..12; anything else raises `ValueError`, which the cleanup
loop treats as "skip this folder". -/
def parseYM (s : String) : Option Nat :=
  let cs := s.toList
  if cs.length = 5 ∨ cs.length = 6 then
    match digitsToNatAux 0 (cs.take 4), digitsToNatAux 0 (cs.drop 4) with
    | some y, some m =>
      if 1 ≤ y ∧ 1 ≤ m ∧ m ≤ 12 then some (y * 12 + (m - 1)) else none
    | _, _ => none
  else none

/-- `os.makedirs(..., exist_ok=True)` on a month folder. -/
def insertFolder (nm : String) (l : List String) : List String :=
  if nm ∈ l then l else l ++ [nm]

/-- The last day of the month with index `c` (the `yesterday_file` date
of `MonthlyProcessor.archive`). -/
def lastDayOfMonth (c : Nat) : Date :=
  ⟨c / 12, c % 12 + 1, dim (c / 12) (c % 12 + 1)⟩

/-- The retention predicate of `_cleanup_old_readings` (app.py lines
469-500): keep a daily folder unless its name parses as a month strictly
before `lmonth` (the month preceding the reference month); unparsable
names are skipped, i.e. kept. -/
def archCutoffKeep (lmonth : Nat) (nm : String) : Bool :=
  match parseYM nm with
  | some ym => decide (lmonth ≤ ym)
  | none => true

/-! ### System state and the advance pipeline -/

/-- The persisted and in-memory state the core mutates.  `clock` is
`current_time.json` (`none` = file absent), `cacheFile` is
`daily_cache.json`, `dayFiles`/`detailFiles`/`summaryFiles` are the
parsed archive tiers keyed by date / month index, `folders` the month
subfolders of `data/daily_readings`, `memCache` the in-memory
`daily_cache` list, `latest` the `latest_readings` map and `kIdx` the
count of random draws consumed. -/
structure SysState where
  clock : Option DT
  accounts : List String
  latest : LMap
  kIdx : Nat
  memCache : List MR
  cacheFile : Option CacheData
  dayFiles : List (Date × DayData)
  detailFiles : List (Nat × DetailData)
  summaryFiles : List (Nat × SummaryData)
  folders : List String
deriving DecidableEq, Repr

/-- `TimeManager.get_current_time`: the stored clock, or the epoch. -/
def clockVal (st : SysState) : DT :=
  st.clock.getD epochDT

/-- `MonthlyProcessor.archive` (app.py lines 339-467) for the month
before month index `c`: skip months before the epoch; ensure the
previous month's folder exists; force-fold that month's last daily file
into its detail aggregate and delete the daily file; compress the detail
aggregate (if present) into the monthly summary; finally delete every
daily folder parsing as a month strictly before the previous month. -/
def archiveYM (c : Nat) (st : SysState) : SysState :=
  let lm := c - 1
  if lm < epochYM then st
  else
    let st1 := { st with folders := insertFolder (fmtYM lm) st.folders }
    let st2 :=
      match lookupK (lastDayOfMonth lm) st1.dayFiles with
      | some yd =>
        let det := (lookupK lm st1.detailFiles).getD []
        { st1 with
          detailFiles := insertK lm (foldDayIntoDetail yd det) st1.detailFiles,
          dayFiles := eraseK (lastDayOfMonth lm) st1.dayFiles }
      | none => st1
    let st3 :=
      match lookupK lm st2.detailFiles with
      | some det =>
        { st2 with summaryFiles := insertK lm (summarize lm det) st2.summaryFiles }
      | none => st2
    { st3 with folders := st3.folders.filter (archCutoffKeep lm) }

/-- The `while current <= end` loop of `MonthlyProcessor.archive_all`
(app.py lines 517-521), on month indices; `gas` bounds the iteration
count and is initialised to cover the whole range. -/
def archiveLoop (endYM : Nat) : Nat → Nat → SysState → SysState
  | 0, _, st => st
  | gas + 1, c, st =>
    if c ≤ endYM then archiveLoop endYM gas (c + 1) (archiveYM c st) else st

/-- `MonthlyProcessor.archive_all` (app.py lines 503-521): normalise
both times to their month, swap if reversed, then archive every month
from the month after `start` through `end`. -/
def archiveAllM (old new : DT) (st : SysState) : SysState :=
  let s := ymIdx old.date
  let e := ymIdx new.date
  let s2 := if e < s then e else s
  let e2 := if e < s then s else e
  archiveLoop e2 (e2 + 1 - s2) (s2 + 1) st

/-- `DailyProcessor.process` (app.py lines 252-307): group the given
readings by meter into a daily payload; merge yesterday's daily file (if
any) into yesterday's monthly detail aggregate and delete it, always
rewriting the detail file; then write the day's daily file.  Both month
folders touched are created. -/
def processModel (st : SysState) (rs : List MR) (pd : Date) : SysState :=
  if rs = [] then st
  else
    let dd := buildDailyData pd rs
    let yd := prevDate pd
    let yYM := ymIdx yd
    let st1 := { st with folders := insertFolder (fmtYM yYM) st.folders }
    let det := (lookupK yYM st1.detailFiles).getD []
    let st2 :=
      match lookupK yd st1.dayFiles with
      | some ydd =>
        { st1 with
          detailFiles := insertK yYM (foldDayIntoDetail ydd det) st1.detailFiles,
          dayFiles := eraseK yd st1.dayFiles }
      | none => { st1 with detailFiles := insertK yYM det st1.detailFiles }
    { st2 with
      dayFiles := insertK pd dd st2.dayFiles,
      folders := insertFolder (fmtYM (ymIdx pd)) st2.folders }

/-- Which pipeline step an injected `IOError` hits: reading generation,
the clock write, the first cache save, the daily rollover, the second
cache save, or the monthly archive. -/
structure FailSpec where
  failGen : Bool
  failSaveClock : Bool
  failCacheA : Bool
  failDaily : Bool
  failCacheB : Bool
  failMonthly : Bool
deriving DecidableEq, Repr

/-- No injected failure. -/
def noFail : FailSpec := ⟨false, false, false, false, false, false⟩

/-- `SmartMeterSystem.collect_readings` (app.py lines 610-648) composed
with `ReadingGenerator.collect` (lines 232-242), with `FailSpec` fault
injection.  The step order is the source's: read the clock (persisting
the epoch if the file was absent), compute the target time (raising
`InvalidUnit` on a bad unit), generate readings over `[t0, t1)`,
persist `t1` as the new current time, save the cache, run the daily
rollover iff the calendar date changed, save the cache again, and run
the monthly archive iff the month number changed.  An injected failure
stops the pipeline, returning the state persisted so far together with
the error. -/
def collectReadingsF (incs : Nat → ℚ) (fs : FailSpec) (unit : String) (n : Nat)
    (st0 : SysState) : SysState × Option Err :=
  let t0 := clockVal st0
  let stA := { st0 with clock := some t0 }
  match calcNextTime t0 unit n with
  | .error e => (stA, some e)
  | .ok t1 =>
    if fs.failGen then (stA, some .io)
    else
      let g := genReadings stA.accounts incs t0 t1 stA.latest stA.kIdx
      let stB := { stA with latest := g.2.1, kIdx := g.2.2, memCache := stA.memCache ++ g.1 }
      if fs.failSaveClock then (stB, some .io)
      else
        let stC := { stB with clock := some t1 }
        if fs.failCacheA then (stC, some .io)
        else
          let stD := { stC with cacheFile := saveCacheF stC.memCache stC.cacheFile }
          if t0.date ≠ t1.date ∧ fs.failDaily then (stD, some .io)
          else
            let stE :=
              if t0.date ≠ t1.date then
                let pending := stD.memCache.filter fun r => rd r.reading_time.date < rd t1.date
                let s2 := (groupByDate pending).foldl (fun s p => processModel s p.2 p.1) stD
                { s2 with memCache := s2.memCache.filter fun r => r.reading_time.date = t1.date }
              else stD
            if fs.failCacheB then (stE, some .io)
            else
              let stF := { stE with cacheFile := saveCacheF stE.memCache stE.cacheFile }
              if t0.date.m ≠ t1.date.m ∧ fs.failMonthly then (stF, some .io)
              else
                let stG := if t0.date.m ≠ t1.date.m then archiveAllM t0 t1 stF else stF
                (stG, none)

end SMS

/-! ## Theorems -/

namespace SMS

set_option linter.unnecessarySeqFocus false

theorem dim_ge (y m : Nat) (h1 : 1 ≤ m) (h2 : m ≤ 12) : 28 ≤ dim y m := by
  interval_cases m <;> simp [dim] <;> split <;> norm_num

theorem cdays_succ (y m : Nat) (h1 : 1 ≤ m) (h2 : m < 12) :
    cdays (m + 1) (isLeap y) = cdays m (isLeap y) + dim y m := by
  interval_cases m <;> cases h : isLeap y <;> simp [cdays, dim, h]

theorem nextDate_valid : ∀ a : Date, a.Valid → (nextDate a).Valid := by
  intro ⟨y, m, d⟩ h
  obtain ⟨h1, h2, h3, h4, h5⟩ := h
  dsimp only at h1 h2 h3 h4 h5
  simp only [nextDate]
  split
  · next hlt =>
    unfold Date.Valid
    dsimp only
    omega
  · next hge =>
    split
    · next hm =>
      have hg := dim_ge y (m + 1) (by omega) (by omega)
      unfold Date.Valid
      dsimp only
      omega
    · next hm =>
      unfold Date.Valid
      dsimp only
      have e : dim (y + 1) 1 = 31 := rfl
      omega

set_option maxHeartbeats 1000000 in
theorem rd_nextDate : ∀ a : Date, a.Valid → rd (nextDate a) = rd a + 1 := by
  intro ⟨y, m, d⟩ h
  obtain ⟨h1, h2, h3, h4, h5⟩ := h
  dsimp only at h1 h2 h3 h4 h5
  simp only [nextDate]
  split
  · next hlt =>
    unfold rd
    dsimp only
    generalize cdays m (isLeap y) = c
    omega
  · next hge =>
    split
    · next hm =>
      unfold rd
      dsimp only
      rw [cdays_succ y m h2 hm]
      generalize cdays m (isLeap y) = c
      generalize hD : dim y m = D at hge h5 ⊢
      omega
    · next hm =>
      have hm12 : m = 12 := by omega
      subst hm12
      have hdim : dim y 12 = 31 := rfl
      have hd : d = 31 := by omega
      subst hd
      obtain ⟨x, rfl⟩ : ∃ x, y = x + 1 := ⟨y - 1, by omega⟩
      unfold rd
      dsimp only
      simp only [cdays]
      norm_num
      by_cases hiy : isLeap (x + 1) = true
      · simp only [hiy, if_true]
        simp only [isLeap, Bool.or_eq_true, Bool.and_eq_true, beq_iff_eq, bne_iff_ne] at hiy
        omega
      · simp only [hiy]
        norm_num
        simp only [Bool.not_eq_true] at hiy
        simp only [isLeap, Bool.or_eq_false_iff, Bool.and_eq_false_iff, beq_eq_false_iff_ne,
          bne_eq_false_iff_eq, beq_iff_eq] at hiy
        omega

/-- `addDays` preserves calendar validity. -/
theorem addDays_valid (n : Nat) (a : Date) (h : a.Valid) : (addDays n a).Valid := by
  induction n with
  | zero => simpa [addDays] using h
  | succ k ih =>
    have e : addDays (k + 1) a = nextDate (addDays k a) := by
      simp [addDays, Function.iterate_succ_apply']
    rw [e]
    exact nextDate_valid _ ih

/-- `addDays` advances the Gregorian ordinal by its argument. -/
theorem rd_addDays (n : Nat) (a : Date) (h : a.Valid) : rd (addDays n a) = rd a + n := by
  induction n with
  | zero => simp [addDays]
  | succ k ih =>
    have e : addDays (k + 1) a = nextDate (addDays k a) := by
      simp [addDays, Function.iterate_succ_apply']
    rw [e, rd_nextDate _ (addDays_valid k a h), ih]
    omega

/-! ### Association-list lemmas -/

theorem lookupK_insertK_self {α β : Type} [DecidableEq α] (k : α) (v : β)
    (l : List (α × β)) : lookupK k (insertK k v l) = some v := by
  induction l with
  | nil => simp [insertK, lookupK]
  | cons p t ih =>
    obtain ⟨a, b⟩ := p
    by_cases hak : a = k
    · subst hak
      simp [insertK, lookupK]
    · simp [insertK, lookupK, hak, ih]

theorem lookupK_eq_none {α β : Type} [DecidableEq α] (k : α) (l : List (α × β))
    (h : k ∉ l.map Prod.fst) : lookupK k l = none := by
  induction l with
  | nil => rfl
  | cons p t ih =>
    obtain ⟨a, b⟩ := p
    simp only [List.map_cons, List.mem_cons, not_or] at h
    have hak : a ≠ k := fun e => h.1 e.symm
    simp [lookupK, hak, ih h.2]

theorem lookupK_eraseK_self {α β : Type} [DecidableEq α] (k : α) (l : List (α × β))
    (h : (l.map Prod.fst).Nodup) : lookupK k (eraseK k l) = none := by
  induction l with
  | nil => rfl
  | cons p t ih =>
    obtain ⟨a, b⟩ := p
    simp only [List.map_cons, List.nodup_cons] at h
    by_cases hak : a = k
    · subst hak
      simp [eraseK]
      exact lookupK_eq_none a t h.1
    · simp [eraseK, lookupK, hak, ih h.2]

theorem insertK_insertK {α β : Type} [DecidableEq α] (k : α) (v : β)
    (l : List (α × β)) : insertK k v (insertK k v l) = insertK k v l := by
  induction l with
  | nil => simp [insertK]
  | cons p t ih =>
    obtain ⟨a, b⟩ := p
    by_cases hak : a = k
    · simp [insertK, hak]
    · simp [insertK, hak, ih]

theorem filter_idem {α : Type} (p : α → Bool) (l : List α) :
    (l.filter p).filter p = l.filter p := by
  induction l with
  | nil => rfl
  | cons a t ih =>
    by_cases h : p a
    · simp [List.filter_cons, h, ih]
    · simp [List.filter_cons, h, ih]

theorem mem_insertFolder_self (nm : String) (l : List String) :
    nm ∈ insertFolder nm l := by
  unfold insertFolder
  split
  · assumption
  · simp

theorem mem_insertFolder (x nm : String) (l : List String) (h : x ∈ l) :
    x ∈ insertFolder nm l := by
  unfold insertFolder
  split
  · exact h
  · simp [h]

theorem insertFolder_of_mem {nm : String} {l : List String} (h : nm ∈ l) :
    insertFolder nm l = l := by
  simp [insertFolder, h]

/-! ### Claim theorems: month arithmetic, cache no-op, invalid unit -/

/-- C7: for every valid starting time and every amount, advancing by
months clamps the day-of-month to the last valid day of the target
month and never produces an invalid date. -/
theorem months_advance_clamps (t : DT) (n : Nat) (h : t.date.Valid) :
    ∃ u : DT, calcNextTime t "months" n = Except.ok u ∧ u.date.Valid ∧
      u.date.d = min t.date.d (dim u.date.y u.date.m) ∧ u.sec = t.sec := by
  obtain ⟨h1, h2, h3, h4, h5⟩ := h
  refine ⟨_, rfl, ⟨?_, ?_, ?_, ?_, ?_⟩, rfl, rfl⟩ <;> dsimp only
  · omega
  · omega
  · omega
  · have hg := dim_ge (t.date.y + (t.date.m + n - 1) / 12) ((t.date.m + n - 1) % 12 + 1)
      (by omega) (by omega)
    omega
  · exact min_le_right _ _

/-- Witness for C7: Jan 31 plus one month lands on Feb 29 in the 2024
leap year and on Feb 28 in 2023. -/
theorem months_advance_clamps_witness :
    (⟨⟨2024, 1, 31⟩, 0⟩ : DT).date.Valid ∧
    (∃ u : DT, calcNextTime ⟨⟨2024, 1, 31⟩, 0⟩ "months" 1 = Except.ok u ∧ u.date.Valid ∧
      u.date.d = min (⟨⟨2024, 1, 31⟩, 0⟩ : DT).date.d (dim u.date.y u.date.m) ∧
      u.sec = (⟨⟨2024, 1, 31⟩, 0⟩ : DT).sec) ∧
    calcNextTime ⟨⟨2024, 1, 31⟩, 0⟩ "months" 1 = Except.ok ⟨⟨2024, 2, 29⟩, 0⟩ ∧
    calcNextTime ⟨⟨2023, 1, 31⟩, 0⟩ "months" 1 = Except.ok ⟨⟨2023, 2, 28⟩, 0⟩ :=
  ⟨by decide, months_advance_clamps ⟨⟨2024, 1, 31⟩, 0⟩ 1 (by decide), by rfl, by rfl⟩

/-- C10: saving an empty pending list performs no write: the persisted
cache file, whatever it contained, is returned unchanged. -/
theorem save_cache_empty_is_noop : ∀ f : Option CacheData, saveCacheF [] f = f := by
  intro f
  rfl

/-- C8: an unrecognized time unit makes the advance fail with
`InvalidUnit` before any state mutation: the returned state differs from
the input state at most by materialising the clock file with its current
value; readings, cache, archives, folders and the clock value are all
unchanged. -/
theorem invalid_unit_aborts_before_mutation (incs : Nat → ℚ) (fs : FailSpec)
    (unit : String) (n : Nat) (st : SysState) (h1 : unit ≠ "minutes")
    (h2 : unit ≠ "hours") (h3 : unit ≠ "days") (h4 : unit ≠ "months") :
    collectReadingsF incs fs unit n st =
      ({ st with clock := some (clockVal st) }, some Err.invalidUnit) := by
  simp [collectReadingsF, calcNextTime, h1, h2, h3, h4]

/-- Witness for C8 at the unit `"weeks"`. -/
theorem invalid_unit_witness :
    collectReadingsF (fun _ => 0) noFail "weeks" 2
        ⟨some ⟨⟨2024, 5, 3⟩, 1800⟩, ["M1"], [], 0, [], none, [], [], [], []⟩ =
      (⟨some ⟨⟨2024, 5, 3⟩, 1800⟩, ["M1"], [], 0, [], none, [], [], [], []⟩,
        some Err.invalidUnit) ∧
    ("weeks" : String) ≠ "minutes" :=
  ⟨invalid_unit_aborts_before_mutation (fun _ => 0) noFail "weeks" 2 _
      (by decide) (by decide) (by decide) (by decide),
    by decide⟩

/-! ### Reading-count lemmas -/

theorem emitSlot_length (incs : Nat → ℚ) (date : Date) (s : Nat) :
    ∀ (accounts : List String) (lm : LMap) (k : Nat),
      (emitSlot incs date s accounts lm k).1.length = accounts.length := by
  intro accounts
  induction accounts with
  | nil => intro lm k; rfl
  | cons a rest ih =>
    intro lm k
    simp [emitSlot, ih]

theorem emitSlot_stamp (incs : Nat → ℚ) (date : Date) (s : Nat) :
    ∀ (accounts : List String) (lm : LMap) (k : Nat),
      ∀ r ∈ (emitSlot incs date s accounts lm k).1,
        r.reading_time.date = date ∧ r.reading_time.sec = s := by
  intro accounts
  induction accounts with
  | nil => intro lm k r hr; simp [emitSlot] at hr
  | cons a rest ih =>
    intro lm k r hr
    simp only [emitSlot, List.mem_cons] at hr
    rcases hr with hr | hr
    · subst hr; exact ⟨rfl, rfl⟩
    · exact ih _ _ r hr

theorem genDayLoop_length (accounts : List String) (incs : Nat → ℚ) (date : Date)
    (endS : Nat) :
    ∀ (gas cur : Nat) (lm : LMap) (k : Nat),
      (genDayLoop accounts incs date endS gas cur lm k).1.length
        = accounts.length * countSlots endS gas cur := by
  intro gas
  induction gas with
  | zero => intro cur lm k; simp [genDayLoop, countSlots]
  | succ g ih =>
    intro cur lm k
    simp only [genDayLoop, countSlots]
    split
    · split
      · simp
      · split
        · simp
        · simp only [List.length_append, emitSlot_length, ih]
          ring
    · simp

theorem genDayLoop_dates (accounts : List String) (incs : Nat → ℚ) (date : Date)
    (endS : Nat) :
    ∀ (gas cur : Nat) (lm : LMap) (k : Nat),
      ∀ r ∈ (genDayLoop accounts incs date endS gas cur lm k).1,
        r.reading_time.date = date := by
  intro gas
  induction gas with
  | zero => intro cur lm k r hr; simp [genDayLoop] at hr
  | succ g ih =>
    intro cur lm k r hr
    simp only [genDayLoop] at hr
    split at hr
    · split at hr
      · simp at hr
      · split at hr
        · simp at hr
        · simp only [List.mem_append] at hr
          rcases hr with hr | hr
          · exact (emitSlot_stamp incs date _ accounts _ _ r hr).1
          · exact ih _ _ _ r hr
    · simp at hr

theorem countSlots_full : countSlots 86399 82799 3600 = 45 := by decide

theorem genDay_midnight_length (accounts : List String) (incs : Nat → ℚ) (date : Date)
    (lm : LMap) (k : Nat) :
    (genDay accounts incs date 0 86399 lm k).1.length = 45 * accounts.length := by
  unfold genDay
  norm_num
  rw [genDayLoop_length, countSlots_full, Nat.mul_comm]

theorem genDay_end_midnight (accounts : List String) (incs : Nat → ℚ) (date : Date)
    (lm : LMap) (k : Nat) : (genDay accounts incs date 0 0 lm k).1 = [] := rfl

theorem midLoop_length (accounts : List String) (incs : Nat → ℚ) (endRd : Nat) :
    ∀ (gas : Nat) (x : Date) (lm : LMap) (k : Nat), x.Valid → rd x + gas = endRd →
      (midLoop accounts incs endRd gas x lm k).1.length
        = gas * (45 * accounts.length) := by
  intro gas
  induction gas with
  | zero => intro x lm k hv he; simp [midLoop]
  | succ g ih =>
    intro x lm k hv he
    have hlt : rd x < endRd := by omega
    simp only [midLoop, if_pos hlt]
    rw [List.length_append, genDay_midnight_length,
      ih (nextDate x) _ _ (nextDate_valid x hv) (by rw [rd_nextDate x hv]; omega)]
    ring

theorem genDay_dates (accounts : List String) (incs : Nat → ℚ) (date : Date)
    (startS endS : Nat) (lm : LMap) (k : Nat) :
    ∀ r ∈ (genDay accounts incs date startS endS lm k).1,
      r.reading_time.date = date := by
  intro r hr
  exact genDayLoop_dates accounts incs date endS _ _ lm k r hr

/-- C2 (amended): a midnight-aligned advance over `D ≥ 1` full days with
`N` registered meters generates `D * 45 * N` readings — 45, not 46,
30-minute slots per day, because the generator emits at the end of each
30-minute step starting from the 01:00 cursor, so a day's first reading
is at 01:30 and its last at 23:30.  For `D = 1` every reading is dated
the starting day. -/
theorem full_days_reading_count (accounts : List String) (incs : Nat → ℚ) (lm : LMap)
    (k : Nat) (d : Date) (D : Nat) (hv : d.Valid) (hD : 1 ≤ D) :
    (genReadings accounts incs ⟨d, 0⟩ ⟨addDays D d, 0⟩ lm k).1.length
        = D * (45 * accounts.length) ∧
    (D = 1 → ∀ r ∈ (genReadings accounts incs ⟨d, 0⟩ ⟨addDays D d, 0⟩ lm k).1,
        r.reading_time.date = d) := by
  have hrd : rd (addDays D d) = rd d + D := rd_addDays D d hv
  have hne : d ≠ addDays D d := by
    intro e
    rw [← e] at hrd
    omega
  unfold genReadings
  dsimp only
  rw [if_neg hne]
  refine ⟨?_, ?_⟩
  · rw [List.length_append, List.length_append]
    rw [genDay_midnight_length accounts incs d lm k]
    rw [midLoop_length accounts incs (rd (addDays D d))
      (rd (addDays D d) - rd (nextDate d)) (nextDate d) _ _
      (nextDate_valid d hv) (by rw [rd_nextDate d hv]; omega)]
    rw [genDay_end_midnight]
    rw [hrd, rd_nextDate d hv]
    obtain ⟨D0, rfl⟩ : ∃ D0, D = D0 + 1 := ⟨D - 1, by omega⟩
    have e0 : rd d + (D0 + 1) - (rd d + 1) = D0 := by omega
    rw [e0]
    simp [Nat.mul_succ]
    ring
  · intro hD1 r hr
    subst hD1
    have hg : rd (addDays 1 d) - rd (nextDate d) = 0 := by
      rw [hrd, rd_nextDate d hv]
      omega
    rw [hg] at hr
    simp only [midLoop, genDay_end_midnight, List.append_nil] at hr
    exact genDay_dates accounts incs d 0 86399 lm k r hr

/-- Counterexample for C2: advancing by 1 day from 2024-05-01T00:00 with
one registered meter generates 45 readings, not the claimed 46. -/
theorem scenario_a_counterexample :
    (genReadings ["M1"] (fun _ => 0) ⟨⟨2024, 5, 1⟩, 0⟩ ⟨⟨2024, 5, 2⟩, 0⟩ [] 0).1.length = 45 ∧
    (genReadings ["M1"] (fun _ => 0) ⟨⟨2024, 5, 1⟩, 0⟩ ⟨⟨2024, 5, 2⟩, 0⟩ [] 0).1.length ≠ 46 := by
  constructor
  · decide
  · decide

/-- Witness for C2 at Scenario A: one meter, one day from the epoch. -/
theorem full_days_reading_count_witness :
    (Date.mk 2024 5 1).Valid ∧
    (genReadings ["M1"] (fun _ => 0) ⟨⟨2024, 5, 1⟩, 0⟩ ⟨addDays 1 ⟨2024, 5, 1⟩, 0⟩ [] 0).1.length
        = 1 * (45 * (["M1"] : List String).length) ∧
    ∀ r ∈ (genReadings ["M1"] (fun _ => 0) ⟨⟨2024, 5, 1⟩, 0⟩ ⟨addDays 1 ⟨2024, 5, 1⟩, 0⟩ [] 0).1,
      r.reading_time.date = ⟨2024, 5, 1⟩ :=
  ⟨by decide,
    (full_days_reading_count ["M1"] (fun _ => 0) [] 0 ⟨2024, 5, 1⟩ 1 (by decide) (by decide)).1,
    (full_days_reading_count ["M1"] (fun _ => 0) [] 0 ⟨2024, 5, 1⟩ 1 (by decide) (by decide)).2 rfl⟩

/-! ### Maintenance-window lemmas -/

theorem genDayLoop_sec_bounds (accounts : List String) (incs : Nat → ℚ) (date : Date)
    (endS : Nat) :
    ∀ (gas cur : Nat) (lm : LMap) (k : Nat), 3600 ≤ cur →
      ∀ r ∈ (genDayLoop accounts incs date endS gas cur lm k).1,
        3600 ≤ r.reading_time.sec ∧ r.reading_time.sec ≤ endS := by
  intro gas
  induction gas with
  | zero => intro cur lm k hc r hr; simp [genDayLoop] at hr
  | succ g ih =>
    intro cur lm k hc r hr
    simp only [genDayLoop] at hr
    split at hr
    · split at hr
      · simp at hr
      · split at hr
        · simp at hr
        · next hlt hnext hhour =>
          simp only [List.mem_append] at hr
          rcases hr with hr | hr
          · have := (emitSlot_stamp incs date (cur + 1800) accounts _ _ r hr).2
            constructor
            · omega
            · omega
          · exact ih (cur + 1800) _ _ (by omega) r hr
    · simp at hr

theorem genDay_sec_bounds (accounts : List String) (incs : Nat → ℚ) (date : Date)
    (startS endS : Nat) (lm : LMap) (k : Nat) :
    ∀ r ∈ (genDay accounts incs date startS endS lm k).1,
      3600 ≤ r.reading_time.sec ∧ r.reading_time.sec ≤ endS := by
  intro r hr
  unfold genDay at hr
  dsimp only at hr
  split at hr
  · exact genDayLoop_sec_bounds accounts incs date endS _ _ lm k (by omega) r hr
  · next hne =>
    have h1 : 1 ≤ startS / 3600 := by omega
    have h2 : 3600 ≤ startS / 3600 * 3600 := by omega
    exact genDayLoop_sec_bounds accounts incs date endS _ _ lm k h2 r hr

theorem midLoop_sec_bounds (accounts : List String) (incs : Nat → ℚ) (endRd : Nat) :
    ∀ (gas : Nat) (x : Date) (lm : LMap) (k : Nat),
      ∀ r ∈ (midLoop accounts incs endRd gas x lm k).1,
        3600 ≤ r.reading_time.sec ∧ r.reading_time.sec ≤ 86399 := by
  intro gas
  induction gas with
  | zero => intro x lm k r hr; simp [midLoop] at hr
  | succ g ih =>
    intro x lm k r hr
    simp only [midLoop] at hr
    split at hr
    · simp only [List.mem_append] at hr
      rcases hr with hr | hr
      · exact genDay_sec_bounds accounts incs x 0 86399 _ _ r hr
      · exact ih (nextDate x) _ _ r hr
    · simp at hr

/-- C6: no generated reading has a time of day inside the 00:00-01:00
maintenance window, and none lands exactly on midnight: every emitted
reading's second-of-day is in `[3600, 86400)`. -/
theorem no_maintenance_window_readings (accounts : List String) (incs : Nat → ℚ)
    (s e : DT) (lm : LMap) (k : Nat) (he : e.sec < 86400) :
    ∀ r ∈ (genReadings accounts incs s e lm k).1,
      3600 ≤ r.reading_time.sec ∧ r.reading_time.sec < 86400 := by
  intro r hr
  unfold genReadings at hr
  dsimp only at hr
  split at hr
  · have := genDay_sec_bounds accounts incs s.date s.sec e.sec lm k r hr
    exact ⟨this.1, by omega⟩
  · simp only [List.mem_append] at hr
    rcases hr with (hr | hr) | hr
    · have := genDay_sec_bounds accounts incs s.date s.sec 86399 lm k r hr
      exact ⟨this.1, by omega⟩
    · have := midLoop_sec_bounds accounts incs (rd e.date) _ _ _ _ r hr
      exact ⟨this.1, by omega⟩
    · have := genDay_sec_bounds accounts incs e.date 0 e.sec _ _ r hr
      exact ⟨this.1, by omega⟩

/-- Witness for C6: a small same-day advance from 01:00 to 03:00 on
2024-05-01; its first generated reading is at 01:30 (second-of-day
5400), outside the maintenance window. -/
theorem no_maintenance_window_witness :
    3600 ≤ ((genReadings ["M1"] (fun _ => 0) ⟨⟨2024, 5, 1⟩, 3600⟩
        ⟨⟨2024, 5, 1⟩, 10800⟩ [] 0).1.get ⟨0, by decide⟩).reading_time.sec ∧
    ((genReadings ["M1"] (fun _ => 0) ⟨⟨2024, 5, 1⟩, 3600⟩
        ⟨⟨2024, 5, 1⟩, 10800⟩ [] 0).1.get ⟨0, by decide⟩).reading_time.sec < 86400 :=
  no_maintenance_window_readings ["M1"] (fun _ => 0) ⟨⟨2024, 5, 1⟩, 3600⟩
    ⟨⟨2024, 5, 1⟩, 10800⟩ [] 0 (by decide) _ (List.get_mem _ _ _)

/-! ### Cache round-trip lemmas -/

theorem ungroup_insertCache (r : MR) (g : CacheData) :
    List.Perm (ungroupCache (insertCache r g)) (ungroupCache g ++ [r]) := by
  induction g with
  | nil =>
    simp [insertCache, ungroupCache]
  | cons p t ih =>
    obtain ⟨a, rs⟩ := p
    by_cases har : a = r.meter_id
    · subst har
      simp only [insertCache, if_pos rfl, ungroupCache, List.map_append, List.map_cons,
        List.map_nil]
      rw [List.append_assoc, List.append_assoc]
      exact List.Perm.append_left _
        (@List.perm_append_comm _ [⟨r.meter_id, r.reading_time, r.meter_value⟩]
          (ungroupCache t))
    · simp only [insertCache, if_neg har, ungroupCache]
      rw [List.append_assoc]
      exact List.Perm.append_left _ ih

theorem ungroup_foldl (x : List MR) :
    ∀ g : CacheData,
      List.Perm (ungroupCache (x.foldl (fun g r => insertCache r g) g))
        (ungroupCache g ++ x) := by
  induction x with
  | nil => intro g; simp
  | cons r t ih =>
    intro g
    simp only [List.foldl_cons]
    refine (ih (insertCache r g)).trans ?_
    refine ((ungroup_insertCache r g).append_right t).trans ?_
    rw [List.append_assoc, List.singleton_append]

theorem ungroup_meter_mem (g : CacheData) (q : MR) (hq : q ∈ ungroupCache g) :
    q.meter_id ∈ g.map Prod.fst := by
  induction g with
  | nil => simp [ungroupCache] at hq
  | cons p t ih =>
    obtain ⟨a, rs⟩ := p
    simp only [ungroupCache, List.mem_append, List.mem_map] at hq
    rcases hq with ⟨w, _, hw⟩ | hq
    · subst hw
      simp
    · simp only [List.map_cons, List.mem_cons]
      exact Or.inr (ih hq)

theorem insertCache_keys (r : MR) (g : CacheData) :
    (insertCache r g).map Prod.fst =
      if r.meter_id ∈ g.map Prod.fst then g.map Prod.fst
      else g.map Prod.fst ++ [r.meter_id] := by
  induction g with
  | nil => simp [insertCache]
  | cons p t ih =>
    obtain ⟨a, rs⟩ := p
    by_cases har : a = r.meter_id
    · subst har
      simp [insertCache]
    · have hne : r.meter_id ≠ a := fun e => har e.symm
      simp only [insertCache, if_neg har, List.map_cons, ih, List.mem_cons]
      by_cases hmem : r.meter_id ∈ t.map Prod.fst
      · simp [hmem, hne]
      · simp [hmem, hne]

theorem insertCache_keysNodup (r : MR) (g : CacheData)
    (h : (g.map Prod.fst).Nodup) : ((insertCache r g).map Prod.fst).Nodup := by
  rw [insertCache_keys]
  split
  · exact h
  · next hmem => simp [List.nodup_append, h, hmem]

theorem filter_ungroup_insertCache (a : String) (r : MR) (g : CacheData)
    (h : (g.map Prod.fst).Nodup) :
    (ungroupCache (insertCache r g)).filter (fun q => q.meter_id == a)
      = (ungroupCache g).filter (fun q => q.meter_id == a)
        ++ (if r.meter_id == a then [r] else []) := by
  induction g with
  | nil =>
    by_cases hra : (r.meter_id == a) = true
    · simp [insertCache, ungroupCache, List.filter, hra]
    · simp [insertCache, ungroupCache, List.filter, hra]
  | cons p t ih =>
    obtain ⟨b, rs⟩ := p
    simp only [List.map_cons, List.nodup_cons] at h
    by_cases hbr : b = r.meter_id
    · subst hbr
      simp only [insertCache, if_pos rfl, ungroupCache, List.map_append, List.map_cons,
        List.map_nil, List.filter_append]
      by_cases hra : (r.meter_id == a) = true
      · have hempty : (ungroupCache t).filter (fun q => q.meter_id == a) = [] := by
          rw [List.filter_eq_nil_iff]
          intro q hq
          have hmm := ungroup_meter_mem t q hq
          simp only [beq_iff_eq]
          intro e
          apply h.1
          rw [beq_iff_eq.mp hra, ← e]
          exact hmm
        simp [List.filter, hra, hempty]
      · simp [List.filter, hra]
    · simp only [insertCache, if_neg hbr, ungroupCache, List.filter_append, ih h.2]
      rw [List.append_assoc]

theorem filter_ungroup_foldl (a : String) (x : List MR) :
    ∀ g : CacheData, (g.map Prod.fst).Nodup →
      (ungroupCache (x.foldl (fun g r => insertCache r g) g)).filter
          (fun q => q.meter_id == a)
        = (ungroupCache g).filter (fun q => q.meter_id == a)
          ++ x.filter (fun q => q.meter_id == a) := by
  induction x with
  | nil => intro g hg; simp
  | cons r t ih =>
    intro g hg
    simp only [List.foldl_cons]
    rw [ih _ (insertCache_keysNodup r g hg), filter_ungroup_insertCache a r g hg,
      List.append_assoc]
    congr 1
    by_cases hra : (r.meter_id == a) = true
    · simp [List.filter_cons, hra]
    · simp [List.filter_cons, hra]

/-- C4 (amended): saving a non-empty pending list and loading it back
returns the same multiset of readings, grouped by meter id: the result
is a permutation of the input in which each meter's readings keep their
original relative order (the per-meter filtered lists are equal).  The
full list itself is recovered only when the input was already grouped by
meter; interleaved meters come back regrouped. -/
theorem cache_roundtrip (x : List MR) (f : Option CacheData) (h : x ≠ []) :
    List.Perm (loadCacheF (saveCacheF x f)) x ∧
    ∀ a : String,
      (loadCacheF (saveCacheF x f)).filter (fun q => q.meter_id == a)
        = x.filter (fun q => q.meter_id == a) := by
  have hs : saveCacheF x f = some (groupCache x) := by simp [saveCacheF, h]
  rw [hs]
  constructor
  · simpa [loadCacheF, groupCache, ungroupCache] using ungroup_foldl x []
  · intro a
    simpa [loadCacheF, groupCache, ungroupCache] using
      filter_ungroup_foldl a x [] (by simp)

/-- Counterexample for C4: with readings of two meters interleaved,
load-after-save returns them regrouped by meter, not the original list:
the timestamp sequence comes back reordered. -/
theorem cache_roundtrip_counterexample :
    loadCacheF (saveCacheF
        [⟨"A", ⟨⟨2024, 5, 1⟩, 5400⟩, 0⟩, ⟨"B", ⟨⟨2024, 5, 1⟩, 7200⟩, 0⟩,
          ⟨"A", ⟨⟨2024, 5, 1⟩, 9000⟩, 0⟩] none) ≠
      [⟨"A", ⟨⟨2024, 5, 1⟩, 5400⟩, 0⟩, ⟨"B", ⟨⟨2024, 5, 1⟩, 7200⟩, 0⟩,
        ⟨"A", ⟨⟨2024, 5, 1⟩, 9000⟩, 0⟩] := by
  intro e
  have e2 := congrArg (List.map MR.reading_time) e
  revert e2
  decide

/-- Witness for C4 on a one-reading list. -/
theorem cache_roundtrip_witness :
    (List.Perm (loadCacheF (saveCacheF [⟨"A", ⟨⟨2024, 5, 1⟩, 5400⟩, 0⟩] none))
        [(⟨"A", ⟨⟨2024, 5, 1⟩, 5400⟩, 0⟩ : MR)] ∧
      ∀ a : String,
        (loadCacheF (saveCacheF [⟨"A", ⟨⟨2024, 5, 1⟩, 5400⟩, 0⟩] none)).filter
            (fun q => q.meter_id == a)
          = [(⟨"A", ⟨⟨2024, 5, 1⟩, 5400⟩, 0⟩ : MR)].filter (fun q => q.meter_id == a)) ∧
    ([(⟨"A", ⟨⟨2024, 5, 1⟩, 5400⟩, 0⟩ : MR)] : List MR) ≠ [] :=
  ⟨cache_roundtrip [⟨"A", ⟨⟨2024, 5, 1⟩, 5400⟩, 0⟩] none (by simp), by simp⟩

/-! ### Monthly-archive idempotence -/

theorem insertFolder_of_not_mem {nm : String} {l : List String} (h : nm ∉ l) :
    insertFolder nm l = l ++ [nm] := by
  simp [insertFolder, h]

theorem insertFolder_filter_stable (f : String) (p : String → Bool) (l : List String) :
    (insertFolder f ((insertFolder f l).filter p)).filter p
      = (insertFolder f l).filter p := by
  by_cases hp : p f = true
  · have hmem : f ∈ (insertFolder f l).filter p :=
      List.mem_filter.mpr ⟨mem_insertFolder_self f l, hp⟩
    rw [insertFolder_of_mem hmem, filter_idem]
  · have hnmem : f ∉ (insertFolder f l).filter p := fun hm =>
      hp (List.mem_filter.mp hm).2
    rw [insertFolder_of_not_mem hnmem, List.filter_append, filter_idem]
    simp [List.filter, hp]

/-- Explicit form of one `archive` run past the epoch guard. -/
theorem archiveYM_char (c : Nat) (st : SysState) (hep : ¬ c - 1 < epochYM) :
    archiveYM c st = { st with
      dayFiles :=
        match lookupK (lastDayOfMonth (c - 1)) st.dayFiles with
        | some _ => eraseK (lastDayOfMonth (c - 1)) st.dayFiles
        | none => st.dayFiles,
      detailFiles :=
        match lookupK (lastDayOfMonth (c - 1)) st.dayFiles with
        | some yv => insertK (c - 1)
            (foldDayIntoDetail yv ((lookupK (c - 1) st.detailFiles).getD []))
            st.detailFiles
        | none => st.detailFiles,
      summaryFiles :=
        match lookupK (c - 1)
            (match lookupK (lastDayOfMonth (c - 1)) st.dayFiles with
             | some yv => insertK (c - 1)
                 (foldDayIntoDetail yv ((lookupK (c - 1) st.detailFiles).getD []))
                 st.detailFiles
             | none => st.detailFiles) with
        | some det => insertK (c - 1) (summarize (c - 1) det) st.summaryFiles
        | none => st.summaryFiles,
      folders := (insertFolder (fmtYM (c - 1)) st.folders).filter
        (archCutoffKeep (c - 1)) } := by
  unfold archiveYM
  rw [if_neg hep]
  cases hdf : lookupK (lastDayOfMonth (c - 1)) st.dayFiles with
  | some yv =>
    dsimp only
    rw [hdf]
    dsimp only
    rw [lookupK_insertK_self]
  | none =>
    dsimp only
    rw [hdf]
    dsimp only
    cases hdt : lookupK (c - 1) st.detailFiles with
    | some det => rfl
    | none => rfl

/-- C5: `MonthlyProcessor.archive` is idempotent for a fixed reference
month: rerunning it from the state the first run produced changes
nothing — in particular the monthly summary file is rewritten with
byte-identical content, since it is a pure function of the unchanged
monthly-detail aggregate.  The hypothesis is the filesystem invariant
that the daily-file store holds at most one entry per date. -/
theorem archive_idempotent (c : Nat) (st : SysState)
    (h : (st.dayFiles.map Prod.fst).Nodup) :
    archiveYM c (archiveYM c st) = archiveYM c st := by
  by_cases hep : c - 1 < epochYM
  · unfold archiveYM
    simp only [if_pos hep]
  · rw [archiveYM_char c st hep, archiveYM_char c _ hep]
    cases hdf : lookupK (lastDayOfMonth (c - 1)) st.dayFiles with
    | some yv =>
      dsimp only
      rw [lookupK_eraseK_self _ _ h]
      dsimp only
      rw [lookupK_insertK_self]
      dsimp only
      rw [insertK_insertK, insertFolder_filter_stable]
    | none =>
      dsimp only
      rw [hdf]
      dsimp only
      cases hdt : lookupK (c - 1) st.detailFiles with
      | some det =>
        dsimp only
        rw [insertK_insertK, insertFolder_filter_stable]
      | none =>
        dsimp only
        rw [insertFolder_filter_stable]

/-- Witness for C5: re-archiving June 2024 (month index 24293) over a
state holding one May-31 daily file is a no-op the second time. -/
theorem archive_idempotent_witness :
    archiveYM 24293 (archiveYM 24293
        ⟨some ⟨⟨2024, 6, 1⟩, 0⟩, ["M1"], [], 0, [], none,
          [(⟨2024, 5, 31⟩, [("M1", ⟨⟨2024, 5, 31⟩, [⟨90, 0⟩]⟩)])], [], [], ["202405"]⟩)
      = archiveYM 24293
        ⟨some ⟨⟨2024, 6, 1⟩, 0⟩, ["M1"], [], 0, [], none,
          [(⟨2024, 5, 31⟩, [("M1", ⟨⟨2024, 5, 31⟩, [⟨90, 0⟩]⟩)])], [], [], ["202405"]⟩ ∧
    ((⟨some ⟨⟨2024, 6, 1⟩, 0⟩, ["M1"], [], 0, [], none,
        [(⟨2024, 5, 31⟩, [("M1", ⟨⟨2024, 5, 31⟩, [⟨90, 0⟩]⟩)])], [], [], ["202405"]⟩ :
      SysState).dayFiles.map Prod.fst).Nodup :=
  ⟨archive_idempotent 24293 _ (by decide), by decide⟩

/-! ### Frame lemmas for the advance pipeline -/

theorem processModel_clock (st : SysState) (rs : List MR) (pd : Date) :
    (processModel st rs pd).clock = st.clock := by
  unfold processModel
  split
  · rfl
  · dsimp only
    split <;> rfl

theorem foldl_process_clock (l : List (Date × List MR)) :
    ∀ st : SysState, (l.foldl (fun s p => processModel s p.2 p.1) st).clock = st.clock := by
  induction l with
  | nil => intro st; rfl
  | cons p t ih =>
    intro st
    simp only [List.foldl_cons]
    rw [ih, processModel_clock]

theorem archiveYM_clock (c : Nat) (st : SysState) :
    (archiveYM c st).clock = st.clock := by
  unfold archiveYM
  dsimp only
  split
  · rfl
  · split <;> split <;> rfl

theorem archiveLoop_clock (endYM : Nat) :
    ∀ (gas c : Nat) (st : SysState), (archiveLoop endYM gas c st).clock = st.clock := by
  intro gas
  induction gas with
  | zero => intro c st; rfl
  | succ g ih =>
    intro c st
    unfold archiveLoop
    split
    · rw [ih, archiveYM_clock]
    · rfl

theorem archiveAllM_clock (old new : DT) (st : SysState) :
    (archiveAllM old new st).clock = st.clock := by
  unfold archiveAllM
  dsimp only
  rw [archiveLoop_clock]

/-- C1 (amended): the clock write is not the last step of the advance:
`collect` persists the new time `t1` immediately after reading
generation, before the cache saves, the daily rollover and the monthly
archive.  A failure during target-time computation or generation leaves
the persisted clock at `t0`, but a failure during the first cache save,
the daily rollover, the second cache save or the monthly archive leaves
the clock already advanced to `t1`. -/
theorem clock_commit_order (incs : Nat → ℚ) (unit : String) (n : Nat) (st : SysState)
    (t1 : DT) (hcalc : calcNextTime (clockVal st) unit n = Except.ok t1) :
    (collectReadingsF incs ⟨true, false, false, false, false, false⟩ unit n st
      = ({ st with clock := some (clockVal st) }, some Err.io)) ∧
    ((collectReadingsF incs ⟨false, true, false, false, false, false⟩ unit n st).1.clock
      = some (clockVal st)) ∧
    ((collectReadingsF incs ⟨false, false, true, false, false, false⟩ unit n st).1.clock
        = some t1 ∧
      (collectReadingsF incs ⟨false, false, true, false, false, false⟩ unit n st).2
        = some Err.io) ∧
    ((collectReadingsF incs ⟨false, false, false, true, false, false⟩ unit n st).1.clock
      = some t1) ∧
    ((collectReadingsF incs ⟨false, false, false, false, true, false⟩ unit n st).1.clock
      = some t1) ∧
    ((collectReadingsF incs ⟨false, false, false, false, false, true⟩ unit n st).1.clock
      = some t1) := by
  refine ⟨?_, ?_, ⟨?_, ?_⟩, ?_, ?_, ?_⟩
  · simp [collectReadingsF, hcalc]
  · simp [collectReadingsF, hcalc]
  · simp [collectReadingsF, hcalc]
  · simp [collectReadingsF, hcalc]
  · simp [collectReadingsF, hcalc, foldl_process_clock, archiveAllM_clock]
    split <;> rename_i h <;> simp [h]
  · simp [collectReadingsF, hcalc, foldl_process_clock, archiveAllM_clock]
    split <;> rename_i h <;> simp [h]
  · simp [collectReadingsF, hcalc, foldl_process_clock, archiveAllM_clock]
    split <;> rename_i h <;> simp [h] <;> (try (split <;> simp))

/-- Counterexample for C1: with an I/O failure injected at the first
cache save — the step right after `collect` returns — the advance
aborts, but the persisted clock has already moved from 01:00 to 02:00:
the clock write is not the last step of the advance. -/
theorem clock_commit_counterexample :
    ((collectReadingsF (fun _ => 0) ⟨false, false, true, false, false, false⟩ "hours" 1
        ⟨some ⟨⟨2024, 5, 1⟩, 3600⟩, ["M1"], [], 0, [], none, [], [], [], []⟩).1.clock
      = some ⟨⟨2024, 5, 1⟩, 7200⟩) ∧
    ((collectReadingsF (fun _ => 0) ⟨false, false, true, false, false, false⟩ "hours" 1
        ⟨some ⟨⟨2024, 5, 1⟩, 3600⟩, ["M1"], [], 0, [], none, [], [], [], []⟩).2
      = some Err.io) ∧
    (⟨⟨2024, 5, 1⟩, 7200⟩ : DT) ≠ ⟨⟨2024, 5, 1⟩, 3600⟩ := by
  refine ⟨?_, ?_, ?_⟩ <;> decide

/-- Witness for C1's amended theorem at a one-hour advance from
2024-05-01T01:00. -/
theorem clock_commit_order_witness :
    (collectReadingsF (fun _ => 0) ⟨true, false, false, false, false, false⟩ "hours" 1
        ⟨some ⟨⟨2024, 5, 1⟩, 3600⟩, ["M1"], [], 0, [], none, [], [], [], []⟩
      = ({ (⟨some ⟨⟨2024, 5, 1⟩, 3600⟩, ["M1"], [], 0, [], none, [], [], [], []⟩ : SysState)
            with clock := some (clockVal ⟨some ⟨⟨2024, 5, 1⟩, 3600⟩, ["M1"], [], 0, [], none,
              [], [], [], []⟩) }, some Err.io)) ∧
    ((collectReadingsF (fun _ => 0) ⟨false, true, false, false, false, false⟩ "hours" 1
        ⟨some ⟨⟨2024, 5, 1⟩, 3600⟩, ["M1"], [], 0, [], none, [], [], [], []⟩).1.clock
      = some (clockVal ⟨some ⟨⟨2024, 5, 1⟩, 3600⟩, ["M1"], [], 0, [], none, [], [], [], []⟩)) ∧
    ((collectReadingsF (fun _ => 0) ⟨false, false, true, false, false, false⟩ "hours" 1
        ⟨some ⟨⟨2024, 5, 1⟩, 3600⟩, ["M1"], [], 0, [], none, [], [], [], []⟩).1.clock
        = some ⟨⟨2024, 5, 1⟩, 7200⟩ ∧
      (collectReadingsF (fun _ => 0) ⟨false, false, true, false, false, false⟩ "hours" 1
        ⟨some ⟨⟨2024, 5, 1⟩, 3600⟩, ["M1"], [], 0, [], none, [], [], [], []⟩).2
        = some Err.io) ∧
    ((collectReadingsF (fun _ => 0) ⟨false, false, false, true, false, false⟩ "hours" 1
        ⟨some ⟨⟨2024, 5, 1⟩, 3600⟩, ["M1"], [], 0, [], none, [], [], [], []⟩).1.clock
      = some ⟨⟨2024, 5, 1⟩, 7200⟩) ∧
    ((collectReadingsF (fun _ => 0) ⟨false, false, false, false, true, false⟩ "hours" 1
        ⟨some ⟨⟨2024, 5, 1⟩, 3600⟩, ["M1"], [], 0, [], none, [], [], [], []⟩).1.clock
      = some ⟨⟨2024, 5, 1⟩, 7200⟩) ∧
    ((collectReadingsF (fun _ => 0) ⟨false, false, false, false, false, true⟩ "hours" 1
        ⟨some ⟨⟨2024, 5, 1⟩, 3600⟩, ["M1"], [], 0, [], none, [], [], [], []⟩).1.clock
      = some ⟨⟨2024, 5, 1⟩, 7200⟩) :=
  clock_commit_order (fun _ => 0) "hours" 1
    ⟨some ⟨⟨2024, 5, 1⟩, 3600⟩, ["M1"], [], 0, [], none, [], [], [], []⟩
    ⟨⟨2024, 5, 1⟩, 7200⟩ (by rfl)

/-! ### Retention lemmas -/

theorem archiveYM_folders (c : Nat) (st : SysState) :
    (archiveYM c st).folders =
      if c - 1 < epochYM then st.folders
      else (insertFolder (fmtYM (c - 1)) st.folders).filter (archCutoffKeep (c - 1)) := by
  by_cases hep : c - 1 < epochYM
  · unfold archiveYM
    simp [hep]
  · rw [archiveYM_char c st hep, if_neg hep]

theorem archCutoffKeep_unparsed (lmonth : Nat) (nm : String) (hp : parseYM nm = none) :
    archCutoffKeep lmonth nm = true := by
  simp [archCutoffKeep, hp]

theorem archiveYM_keeps_unparsed (c : Nat) (st : SysState) (nm : String)
    (hmem : nm ∈ st.folders) (hp : parseYM nm = none) :
    nm ∈ (archiveYM c st).folders := by
  rw [archiveYM_folders]
  split
  · exact hmem
  · exact List.mem_filter.mpr
      ⟨mem_insertFolder nm _ st.folders hmem, archCutoffKeep_unparsed _ nm hp⟩

theorem archiveLoop_keeps_unparsed (endYM : Nat) :
    ∀ (gas c : Nat) (st : SysState) (nm : String), nm ∈ st.folders → parseYM nm = none →
      nm ∈ (archiveLoop endYM gas c st).folders := by
  intro gas
  induction gas with
  | zero => intro c st nm hmem hp; exact hmem
  | succ g ih =>
    intro c st nm hmem hp
    unfold archiveLoop
    split
    · exact ih (c + 1) _ nm (archiveYM_keeps_unparsed c st nm hmem hp) hp
    · exact hmem

theorem archiveAllM_keeps_unparsed (old new : DT) (st : SysState) (nm : String)
    (hmem : nm ∈ st.folders) (hp : parseYM nm = none) :
    nm ∈ (archiveAllM old new st).folders := by
  unfold archiveAllM
  dsimp only
  exact archiveLoop_keeps_unparsed _ _ _ st nm hmem hp

theorem processModel_folders_mem (st : SysState) (rs : List MR) (pd : Date)
    (nm : String) (h : nm ∈ st.folders) : nm ∈ (processModel st rs pd).folders := by
  unfold processModel
  dsimp only
  split
  · exact h
  · split <;> exact mem_insertFolder _ _ _ (mem_insertFolder _ _ _ h)

theorem foldl_process_folders_mem (l : List (Date × List MR)) :
    ∀ (st : SysState) (nm : String), nm ∈ st.folders →
      nm ∈ ((l.foldl (fun s p => processModel s p.2 p.1) st)).folders := by
  induction l with
  | nil => intro st nm h; exact h
  | cons p t ih =>
    intro st nm h
    simp only [List.foldl_cons]
    exact ih _ nm (processModel_folders_mem st p.2 p.1 nm h)

theorem archiveYM_cleanup (c : Nat) (st : SysState) (hep : epochYM ≤ c - 1) :
    ∀ nm ∈ (archiveYM c st).folders, ∀ ym, parseYM nm = some ym → ¬ ym < c - 1 := by
  intro nm hmem ym hp
  rw [archiveYM_folders, if_neg (by omega)] at hmem
  have hk := (List.mem_filter.mp hmem).2
  simp [archCutoffKeep, hp] at hk
  omega

theorem archiveLoop_stop (endYM : Nat) (gas c : Nat) (st : SysState)
    (h : endYM < c) : archiveLoop endYM gas c st = st := by
  cases gas with
  | zero => rfl
  | succ g =>
    unfold archiveLoop
    rw [if_neg (by omega)]

theorem archiveLoop_last (endYM : Nat) :
    ∀ (gas c : Nat) (st : SysState), c ≤ endYM → endYM + 1 - c ≤ gas →
      ∃ s : SysState, archiveLoop endYM gas c st = archiveYM endYM s := by
  intro gas
  induction gas with
  | zero => intro c st hc hg; omega
  | succ g ih =>
    intro c st hc hg
    unfold archiveLoop
    rw [if_pos hc]
    by_cases hce : c = endYM
    · subst hce
      rw [archiveLoop_stop _ _ _ _ (by omega)]
      exact ⟨st, rfl⟩
    · exact ih (c + 1) (archiveYM c st) (by omega) (by omega)

theorem archiveAllM_cleanup (old new : DT) (st : SysState)
    (hlt : ymIdx old.date < ymIdx new.date) (hep : epochYM ≤ ymIdx new.date - 1) :
    ∀ nm ∈ (archiveAllM old new st).folders, ∀ ym, parseYM nm = some ym →
      ¬ ym < ymIdx new.date - 1 := by
  intro nm hmem ym hp
  unfold archiveAllM at hmem
  dsimp only at hmem
  rw [if_neg (by omega), if_neg (by omega)] at hmem
  obtain ⟨s, hs⟩ := archiveLoop_last (ymIdx new.date)
    (ymIdx new.date + 1 - ymIdx old.date) (ymIdx old.date + 1) st
    (by omega) (by omega)
  rw [hs] at hmem
  exact archiveYM_cleanup _ _ (by omega) nm hmem ym hp

/-- C9 (amended): after an advance whose month *number* changes (the
trigger `old_time.month != new_time.month` compares only month-of-year),
moving forward from a month at or after the epoch, every daily folder
whose name parses as a month strictly before the month preceding the new
time's month has been deleted, and folders whose names do not parse as
`YYYYMM` are skipped (never deleted).  An advance of a whole number of
years crosses month boundaries without changing the month number and
performs no cleanup at all — see the counterexample. -/
theorem retention_after_month_advance (incs : Nat → ℚ) (unit : String) (n : Nat)
    (st : SysState) (t1 : DT)
    (hcalc : calcNextTime (clockVal st) unit n = Except.ok t1)
    (hm : (clockVal st).date.m ≠ t1.date.m)
    (hlt : ymIdx (clockVal st).date < ymIdx t1.date)
    (hep : epochYM ≤ ymIdx t1.date - 1) :
    (∀ nm ∈ (collectReadingsF incs noFail unit n st).1.folders,
      ∀ ym, parseYM nm = some ym → ¬ ym < ymIdx t1.date - 1) ∧
    (∀ nm ∈ st.folders, parseYM nm = none →
      nm ∈ (collectReadingsF incs noFail unit n st).1.folders) := by
  constructor
  · intro nm hmem ym hp
    revert hmem
    simp [collectReadingsF, hcalc, noFail, hm]
    split <;>
      (intro hmem; have hcl := archiveAllM_cleanup _ t1 _ hlt hep nm hmem ym hp; omega)
  · intro nm hmem hp
    simp [collectReadingsF, hcalc, noFail, hm]
    split
    · exact archiveAllM_keeps_unparsed _ t1 _ nm hmem hp
    · exact archiveAllM_keeps_unparsed _ t1 _ nm
        (foldl_process_folders_mem _ _ nm hmem) hp

/-- Counterexample for C9: a 12-month advance (2024-05-15 to 2025-05-15)
crosses eleven month boundaries, but the rollover trigger compares only
the month number (`old_time.month != new_time.month`), which is 5 on
both sides — so the monthly archive and its folder cleanup never run,
and the stale daily folder `202312` (December 2023, far outside the
retention window) survives the advance. -/
theorem retention_counterexample :
    ((collectReadingsF (fun _ => 0) noFail "months" 12
        ⟨some ⟨⟨2024, 5, 15⟩, 0⟩, [], [], 0, [], none, [], [], [], ["202312"]⟩).1.folders
      = ["202312"]) ∧
    ((collectReadingsF (fun _ => 0) noFail "months" 12
        ⟨some ⟨⟨2024, 5, 15⟩, 0⟩, [], [], 0, [], none, [], [], [], ["202312"]⟩).2 = none) ∧
    calcNextTime ⟨⟨2024, 5, 15⟩, 0⟩ "months" 12 = Except.ok ⟨⟨2025, 5, 15⟩, 0⟩ ∧
    parseYM "202312" = some 24287 ∧
    24287 < ymIdx (⟨2025, 5, 15⟩ : Date) - 1 := by
  set_option maxRecDepth 1000000 in
  refine ⟨?_, ?_, ?_, ?_, ?_⟩
  · decide
  · decide
  · rfl
  · decide
  · decide

/-- Witness for C9's amended theorem: a one-month advance from
2024-05-15; the unparsable folder name `0junk` is skipped by the
cleanup and survives. -/
theorem retention_after_month_advance_witness :
    "0junk" ∈ ((collectReadingsF (fun _ => 0) noFail "months" 1
        ⟨some ⟨⟨2024, 5, 15⟩, 0⟩, [], [], 0, [], none, [], [], [], ["0junk"]⟩).1).folders ∧
    parseYM "0junk" = none :=
  ⟨(retention_after_month_advance (fun _ => 0) "months" 1
        ⟨some ⟨⟨2024, 5, 15⟩, 0⟩, [], [], 0, [], none, [], [], [], ["0junk"]⟩
        ⟨⟨2024, 6, 15⟩, 0⟩ (by rfl) (by decide) (by decide) (by decide)).2
      "0junk" (by decide) (by decide),
    by decide⟩

/-! ### Monotone-value lemmas -/

theorem round3_mono {p q : ℚ} (h : p ≤ q) : round3 p ≤ round3 q := by
  unfold round3
  have h1 : p * 1000 + 1 / 2 ≤ q * 1000 + 1 / 2 := by
    have := mul_le_mul_of_nonneg_right h (by norm_num : (0 : ℚ) ≤ 1000)
    linarith
  have h3 : ((⌊p * 1000 + 1 / 2⌋ : ℤ) : ℚ) ≤ ((⌊q * 1000 + 1 / 2⌋ : ℤ) : ℚ) := by
    exact_mod_cast Int.floor_mono h1
  exact (div_le_div_iff_of_pos_right (by norm_num)).mpr h3

theorem lookupK_insertK_ne {α β : Type} [DecidableEq α] {j k : α} (h : j ≠ k)
    (v : β) (l : List (α × β)) : lookupK k (insertK j v l) = lookupK k l := by
  induction l with
  | nil => simp [insertK, lookupK, h]
  | cons p t ih =>
    obtain ⟨a, b⟩ := p
    by_cases haj : a = j
    · subst haj
      simp [insertK, lookupK, h, ih]
    · simp [insertK, lookupK, haj, ih]

theorem lkv_insertK_self (a : String) (v : ℚ) (lm : LMap) :
    lkv a (insertK a v lm) = v := by
  simp [lkv, lookupK_insertK_self]

theorem lkv_insertK_ne {b a : String} (h : b ≠ a) (v : ℚ) (lm : LMap) :
    lkv a (insertK b v lm) = lkv a lm := by
  simp [lkv, lookupK_insertK_ne h]

theorem emitSlot_lkv_mono (incs : Nat → ℚ) (date : Date) (s : Nat)
    (hinc : ∀ i, 0 ≤ incs i) :
    ∀ (accounts : List String) (lm : LMap) (k : Nat) (a : String),
      lkv a lm ≤ lkv a (emitSlot incs date s accounts lm k).2.1 := by
  intro accounts
  induction accounts with
  | nil => intro lm k a; exact le_refl _
  | cons b rest ih =>
    intro lm k a
    simp only [emitSlot]
    refine le_trans ?_ (ih (insertK b ((lookupK b lm).getD 0 + incs k) lm) (k + 1) a)
    by_cases hab : b = a
    · subst hab
      rw [lkv_insertK_self]
      have := hinc k
      unfold lkv
      linarith
    · rw [lkv_insertK_ne hab]

theorem emitSlot_lkv_not_mem (incs : Nat → ℚ) (date : Date) (s : Nat) :
    ∀ (accounts : List String) (lm : LMap) (k : Nat) (a : String), a ∉ accounts →
      lkv a (emitSlot incs date s accounts lm k).2.1 = lkv a lm := by
  intro accounts
  induction accounts with
  | nil => intro lm k a _; rfl
  | cons b rest ih =>
    intro lm k a ha
    simp only [List.mem_cons, not_or] at ha
    simp only [emitSlot]
    rw [ih _ _ a ha.2, lkv_insertK_ne (fun e => ha.1 e.symm)]

theorem emitSlot_forMeter (incs : Nat → ℚ) (date : Date) (s : Nat) (a : String) :
    ∀ (accounts : List String) (lm : LMap) (k : Nat), accounts.Nodup →
      forMeter a (emitSlot incs date s accounts lm k).1
        = if a ∈ accounts
          then [⟨a, ⟨date, s⟩, round3 (lkv a (emitSlot incs date s accounts lm k).2.1)⟩]
          else [] := by
  intro accounts
  induction accounts with
  | nil => intro lm k _; simp [emitSlot, forMeter]
  | cons b rest ih =>
    intro lm k hnd
    simp only [List.nodup_cons] at hnd
    simp only [emitSlot]
    by_cases hab : b = a
    · subst hab
      have hfm := ih (insertK b ((lookupK b lm).getD 0 + incs k) lm) (k + 1) hnd.2
      rw [if_neg hnd.1] at hfm
      simp [forMeter, List.filter_cons, hfm]
      refine ⟨?_, ?_⟩
      · rw [emitSlot_lkv_not_mem incs date s rest _ _ b hnd.1, lkv_insertK_self]
      · intro x hx
        have h0 := List.filter_eq_nil_iff.mp hfm x hx
        simpa using h0
    · have hfm := ih (insertK b ((lookupK b lm).getD 0 + incs k) lm) (k + 1) hnd.2
      by_cases hmem : a ∈ rest
      · rw [if_pos hmem] at hfm
        simp [forMeter, List.filter_cons, hab, hmem]
        simpa [forMeter] using hfm
      · rw [if_neg hmem] at hfm
        have hne2 : ¬ a = b := fun e => hab e.symm
        simp [forMeter, List.filter_cons, hab, hmem, hne2]
        intro x hx
        have h0 := List.filter_eq_nil_iff.mp hfm x hx
        simpa using h0

theorem genDayLoop_invariant (accounts : List String) (incs : Nat → ℚ) (date : Date)
    (endS : Nat) (a : String) (hinc : ∀ i, 0 ≤ incs i) (hnd : accounts.Nodup) :
    ∀ (gas cur : Nat) (lm : LMap) (k : Nat),
      lkv a lm ≤ lkv a (genDayLoop accounts incs date endS gas cur lm k).2.1 ∧
      (∀ r ∈ forMeter a (genDayLoop accounts incs date endS gas cur lm k).1,
        cur < r.reading_time.sec ∧ r.reading_time.sec ≤ endS ∧
        r.reading_time.date = date ∧
        round3 (lkv a lm) ≤ r.meter_value ∧
        r.meter_value ≤ round3 (lkv a (genDayLoop accounts incs date endS gas cur lm k).2.1)) ∧
      List.Pairwise mrChain (forMeter a (genDayLoop accounts incs date endS gas cur lm k).1) := by
  intro gas
  induction gas with
  | zero =>
    intro cur lm k
    simp [genDayLoop, forMeter]
  | succ g ih =>
    intro cur lm k
    simp only [genDayLoop]
    split
    · next hcur =>
      split
      · simp [forMeter]
      · split
        · simp [forMeter]
        · next hnext hhour =>
          have hE := emitSlot_forMeter incs date (cur + 1800) a accounts lm k hnd
          have hEmono := emitSlot_lkv_mono incs date (cur + 1800) hinc accounts lm k a
          have hI := ih (cur + 1800)
            (emitSlot incs date (cur + 1800) accounts lm k).2.1
            (emitSlot incs date (cur + 1800) accounts lm k).2.2
          obtain ⟨ih1, ih2, ih3⟩ := hI
          dsimp only
          have hfa : forMeter a ((emitSlot incs date (cur + 1800) accounts lm k).1
              ++ (genDayLoop accounts incs date endS g (cur + 1800)
                (emitSlot incs date (cur + 1800) accounts lm k).2.1
                (emitSlot incs date (cur + 1800) accounts lm k).2.2).1)
              = forMeter a (emitSlot incs date (cur + 1800) accounts lm k).1
                ++ forMeter a (genDayLoop accounts incs date endS g (cur + 1800)
                  (emitSlot incs date (cur + 1800) accounts lm k).2.1
                  (emitSlot incs date (cur + 1800) accounts lm k).2.2).1 := by
            simp [forMeter]
          refine ⟨le_trans hEmono ih1, ?_, ?_⟩
          · intro r hr
            rw [hfa] at hr
            rcases List.mem_append.mp hr with hr | hr
            · rw [hE] at hr
              by_cases hmem : a ∈ accounts
              · rw [if_pos hmem] at hr
                simp only [List.mem_singleton] at hr
                subst hr
                refine ⟨?_, ?_, rfl, round3_mono hEmono, round3_mono ih1⟩
                · show cur < cur + 1800
                  omega
                · show cur + 1800 ≤ endS
                  omega
              · rw [if_neg hmem] at hr
                simp at hr
            · obtain ⟨hb1, hb2, hb3, hb4, hb5⟩ := ih2 r hr
              exact ⟨by omega, hb2, hb3,
                le_trans (round3_mono hEmono) hb4, hb5⟩
          · rw [hfa]
            rw [List.pairwise_append]
            refine ⟨?_, ih3, ?_⟩
            · rw [hE]
              by_cases hmem : a ∈ accounts
              · rw [if_pos hmem]
                simp
              · rw [if_neg hmem]
                simp
            · intro r1 hr1 r2 hr2
              rw [hE] at hr1
              by_cases hmem : a ∈ accounts
              · rw [if_pos hmem] at hr1
                simp only [List.mem_singleton] at hr1
                subst hr1
                obtain ⟨hb1, hb2, hb3, hb4, hb5⟩ := ih2 r2 hr2
                constructor
                · show dtKey ⟨date, cur + 1800⟩ < dtKey r2.reading_time
                  simp only [dtKey, hb3]
                  omega
                · exact hb4
              · rw [if_neg hmem] at hr1
                simp at hr1
    · simp [forMeter]

theorem genDay_invariant (accounts : List String) (incs : Nat → ℚ) (date : Date)
    (startS endS : Nat) (a : String) (hinc : ∀ i, 0 ≤ incs i) (hnd : accounts.Nodup)
    (lm : LMap) (k : Nat) :
    lkv a lm ≤ lkv a (genDay accounts incs date startS endS lm k).2.1 ∧
    (∀ r ∈ forMeter a (genDay accounts incs date startS endS lm k).1,
      r.reading_time.sec ≤ endS ∧ r.reading_time.date = date ∧
      round3 (lkv a lm) ≤ r.meter_value ∧
      r.meter_value ≤ round3 (lkv a (genDay accounts incs date startS endS lm k).2.1)) ∧
    List.Pairwise mrChain (forMeter a (genDay accounts incs date startS endS lm k).1) := by
  unfold genDay
  dsimp only
  obtain ⟨h1, h2, h3⟩ := genDayLoop_invariant accounts incs date endS a hinc hnd
    (endS - (if startS / 3600 * 3600 / 3600 = 0 then 3600 else startS / 3600 * 3600))
    (if startS / 3600 * 3600 / 3600 = 0 then 3600 else startS / 3600 * 3600) lm k
  refine ⟨h1, ?_, h3⟩
  intro r hr
  obtain ⟨_, hb2, hb3, hb4, hb5⟩ := h2 r hr
  exact ⟨hb2, hb3, hb4, hb5⟩

theorem midLoop_invariant (accounts : List String) (incs : Nat → ℚ) (endRd : Nat)
    (a : String) (hinc : ∀ i, 0 ≤ incs i) (hnd : accounts.Nodup) :
    ∀ (gas : Nat) (x : Date) (lm : LMap) (k : Nat), x.Valid →
      lkv a lm ≤ lkv a (midLoop accounts incs endRd gas x lm k).2.1 ∧
      (∀ r ∈ forMeter a (midLoop accounts incs endRd gas x lm k).1,
        rd x ≤ rd r.reading_time.date ∧ rd r.reading_time.date < endRd ∧
        r.reading_time.sec ≤ 86399 ∧
        round3 (lkv a lm) ≤ r.meter_value ∧
        r.meter_value ≤ round3 (lkv a (midLoop accounts incs endRd gas x lm k).2.1)) ∧
      List.Pairwise mrChain (forMeter a (midLoop accounts incs endRd gas x lm k).1) := by
  intro gas
  induction gas with
  | zero => intro x lm k hv; simp [midLoop, forMeter]
  | succ g ih =>
    intro x lm k hv
    simp only [midLoop]
    split
    · next hlt =>
      obtain ⟨g1, g2, g3⟩ := genDay_invariant accounts incs x 0 86399 a hinc hnd lm k
      obtain ⟨i1, i2, i3⟩ := ih (nextDate x) (genDay accounts incs x 0 86399 lm k).2.1
        (genDay accounts incs x 0 86399 lm k).2.2 (nextDate_valid x hv)
      have hrdn : rd (nextDate x) = rd x + 1 := rd_nextDate x hv
      dsimp only
      have hfa : forMeter a ((genDay accounts incs x 0 86399 lm k).1
          ++ (midLoop accounts incs endRd g (nextDate x)
            (genDay accounts incs x 0 86399 lm k).2.1
            (genDay accounts incs x 0 86399 lm k).2.2).1)
          = forMeter a (genDay accounts incs x 0 86399 lm k).1
            ++ forMeter a (midLoop accounts incs endRd g (nextDate x)
              (genDay accounts incs x 0 86399 lm k).2.1
              (genDay accounts incs x 0 86399 lm k).2.2).1 := by
        simp [forMeter]
      refine ⟨le_trans g1 i1, ?_, ?_⟩
      · intro r hr
        rw [hfa] at hr
        rcases List.mem_append.mp hr with hr | hr
        · obtain ⟨hb1, hb2, hb3, hb4⟩ := g2 r hr
          rw [hb2]
          exact ⟨le_refl _, hlt, hb1, hb3, le_trans hb4 (round3_mono i1)⟩
        · obtain ⟨hb1, hb2, hb3, hb4, hb5⟩ := i2 r hr
          refine ⟨by omega, hb2, hb3, le_trans (round3_mono g1) hb4, hb5⟩
      · rw [hfa, List.pairwise_append]
        refine ⟨g3, i3, ?_⟩
        intro r1 hr1 r2 hr2
        obtain ⟨ha1, ha2, ha3, ha4⟩ := g2 r1 hr1
        obtain ⟨hb1, hb2, hb3, hb4, hb5⟩ := i2 r2 hr2
        constructor
        · simp only [dtKey, ha2]
          omega
        · exact le_trans ha4 hb4
    · simp [forMeter]

/-- C3: for every meter, the readings one `generate_readings` call emits
for it, in emission order, have strictly increasing timestamps and
non-decreasing values: each value is the meter's previous remembered
value plus a non-negative increment drawn from `[0, 1)`, rounded by the
monotone `round3`, so ordering the readings chronologically never shows
a value decrease. -/
theorem meter_values_monotone (accounts : List String) (incs : Nat → ℚ) (s e : DT)
    (lm : LMap) (k : Nat) (a : String)
    (hinc : ∀ i, 0 ≤ incs i ∧ incs i < 1) (hnd : accounts.Nodup)
    (hv : s.date.Valid)
    (hord : s.date = e.date ∨ rd s.date < rd e.date) :
    List.Pairwise mrChain (forMeter a (genReadings accounts incs s e lm k).1) := by
  have hinc0 : ∀ i, 0 ≤ incs i := fun i => (hinc i).1
  unfold genReadings
  by_cases hde : s.date = e.date
  · rw [if_pos hde]
    exact (genDay_invariant accounts incs s.date s.sec e.sec a hinc0 hnd lm k).2.2
  · rw [if_neg hde]
    dsimp only
    have hrdlt : rd s.date < rd e.date := hord.resolve_left hde
    have hrdn : rd (nextDate s.date) = rd s.date + 1 := rd_nextDate s.date hv
    obtain ⟨g1, g2, g3⟩ := genDay_invariant accounts incs s.date s.sec 86399 a hinc0 hnd lm k
    obtain ⟨m1, m2, m3⟩ := midLoop_invariant accounts incs (rd e.date) a hinc0 hnd
      (rd e.date - rd (nextDate s.date)) (nextDate s.date)
      (genDay accounts incs s.date s.sec 86399 lm k).2.1
      (genDay accounts incs s.date s.sec 86399 lm k).2.2 (nextDate_valid s.date hv)
    obtain ⟨l1, l2, l3⟩ := genDay_invariant accounts incs e.date 0 e.sec a hinc0 hnd
      (midLoop accounts incs (rd e.date) (rd e.date - rd (nextDate s.date)) (nextDate s.date)
        (genDay accounts incs s.date s.sec 86399 lm k).2.1
        (genDay accounts incs s.date s.sec 86399 lm k).2.2).2.1
      (midLoop accounts incs (rd e.date) (rd e.date - rd (nextDate s.date)) (nextDate s.date)
        (genDay accounts incs s.date s.sec 86399 lm k).2.1
        (genDay accounts incs s.date s.sec 86399 lm k).2.2).2.2
    have hfa : ∀ A B : List MR, forMeter a (A ++ B) = forMeter a A ++ forMeter a B := by
      intro A B
      simp [forMeter]
    rw [hfa, hfa, List.pairwise_append, List.pairwise_append]
    refine ⟨⟨g3, m3, ?_⟩, l3, ?_⟩
    · intro r1 hr1 r2 hr2
      obtain ⟨ha1, ha2, ha3, ha4⟩ := g2 r1 hr1
      obtain ⟨hb1, hb2, hb3, hb4, hb5⟩ := m2 r2 hr2
      constructor
      · simp only [dtKey, ha2]
        omega
      · exact le_trans ha4 hb4
    · intro r1 hr1 r2 hr2
      obtain ⟨hc1, hc2, hc3, hc4⟩ := l2 r2 hr2
      rcases List.mem_append.mp hr1 with hr1 | hr1
      · obtain ⟨ha1, ha2, ha3, ha4⟩ := g2 r1 hr1
        constructor
        · simp only [dtKey, ha2, hc2]
          omega
        · exact le_trans ha4 (le_trans (round3_mono m1) hc3)
      · obtain ⟨hb1, hb2, hb3, hb4, hb5⟩ := m2 r1 hr1
        constructor
        · simp only [dtKey, hc2]
          omega
        · exact le_trans hb5 hc3

/-- Witness for C3 at a small same-day advance with one meter. -/
theorem meter_values_monotone_witness :
    List.Pairwise mrChain (forMeter "M1" (genReadings ["M1"] (fun _ => 0)
      ⟨⟨2024, 5, 1⟩, 3600⟩ ⟨⟨2024, 5, 1⟩, 10800⟩ [] 0).1) :=
  meter_values_monotone ["M1"] (fun _ => 0) ⟨⟨2024, 5, 1⟩, 3600⟩ ⟨⟨2024, 5, 1⟩, 10800⟩
    [] 0 "M1" (fun i => by norm_num) (by decide) (by decide) (Or.inl rfl)

end SMS
